import Mathlib

/-!
Verification of the toroidal Game-of-Life core (`Field`, `Life`) of the
game-of-life-rust-cli repository, shallowly embedded from `src/main.rs`.

Machine integers: `u16` dimensions and coordinates become `Nat`; the `i32`
coordinates of `is_alive`/`next` become `Int` (no `i32` operation in the
source can overflow, except the `u16` product `width * height` in `Life::new`,
which is modelled explicitly modulo `2^16`).  The fallible `Field::set`
(`&mut self` + `Result<(), &str>`) becomes a state-passing function returning
the updated state paired with the result; `.unwrap()` call sites propagate the
error through `Except`.  The random generator of `Life::new` is modelled as an
abstract stream of coordinate pairs (the values produced by `gen_range`).
-/

namespace GoL

/-- `struct Field { cells: Vec<Vec<bool>>, width: u16, height: u16 }` -/
structure Field where
  cells : List (List Bool)
  width : Nat
  height : Nat
  deriving DecidableEq

/-- `Field::new`: all-dead grid of the given dimensions. -/
def Field.new (width height : Nat) : Field :=
  { cells := List.replicate height (List.replicate width false)
    width := width
    height := height }

/-- `Field::set(&mut self, x, y, val) -> Result<(), &'static str>`:
bounds-checked write, embedded as (new state, result). -/
def Field.set (f : Field) (x y : Nat) (val : Bool) : Field × Except String Unit :=
  if x ≥ f.width ∨ y ≥ f.height then
    (f, Except.error "coordinates are out of bounds")
  else
    ({ f with cells := f.cells.set y ((f.cells.getD y []).set x val) }, Except.ok ())

/-- `self.set(...).unwrap()` at a call site: keep the new state, turn `Err`
into a propagated failure. -/
def Field.setBang (f : Field) (x y : Nat) (val : Bool) : Except String Field :=
  match f.set x y val with
  | (f', Except.ok _) => Except.ok f'
  | (_, Except.error e) => Except.error e

/-- `Field::is_alive`: toroidal lookup, both coordinates reduced by
`rem_euclid` (Lean's `Int.emod`). -/
def Field.is_alive (f : Field) (x y : Int) : Bool :=
  let x' := x % (f.width : Int)
  let y' := y % (f.height : Int)
  (f.cells.getD y'.toNat []).getD x'.toNat false

/-- The 8 Moore-neighborhood offsets, in source order. -/
def NEIGHBORS : List (Int × Int) :=
  [(-1, -1), (0, -1), (1, -1), (-1, 0), (1, 0), (-1, 1), (0, 1), (1, 1)]

/-- `Field::next`: count alive neighbors through the wrapping `is_alive`,
apply the B3/S23 rule. -/
def Field.next (f : Field) (x y : Int) : Bool :=
  let alive_neighbors :=
    (NEIGHBORS.filter (fun p => f.is_alive (x + p.1) (y + p.2))).length
  alive_neighbors == 3 || alive_neighbors == 2 && f.is_alive x y

/-- Direct (unwrapped) read of an in-range cell, for specification purposes. -/
def Field.cellAt (f : Field) (x y : Nat) : Bool :=
  (f.cells.getD y []).getD x false

/-- Structural well-formedness: the nested lists have the advertised
dimensions (true of every `Field` the program builds). -/
def Field.wf (f : Field) : Prop :=
  f.cells.length = f.height ∧ ∀ r ∈ f.cells, r.length = f.width

/-- Number of alive cells of the grid. -/
def Field.aliveCount (f : Field) : Nat :=
  (f.cells.map (fun r => r.count true)).sum

/-- `struct Life { current: Field, next: Field, width: u16, height: u16 }` -/
structure Life where
  current : Field
  next : Field
  width : Nat
  height : Nat
  deriving DecidableEq

/-- The loop bound of `Life::new`: `width * height / 4` computed in `u16`
arithmetic (the product wraps modulo `2^16`). -/
def Life.seedCount (w h : Nat) : Nat :=
  w * h % 65536 / 4

/-- `Life::new`, with the random generator abstracted as the stream `rng`
of pairs produced by `gen_range(0..width)`, `gen_range(0..height)`. -/
def Life.new (w h : Nat) (rng : Nat → Nat × Nat) : Except String Life := do
  let cur ← (List.range (Life.seedCount w h)).foldlM
    (fun s n => Field.setBang s (rng n).1 (rng n).2 true) (Field.new w h)
  Except.ok { current := cur, next := Field.new w h, width := w, height := h }

/-- `Life::step` before the final buffer swap: the double `for` loop writing
`current.next(x, y)` into the scratch grid. -/
def Life.writePass (l : Life) : Except String Field :=
  (List.range l.height).foldlM
    (fun s y => (List.range l.width).foldlM
      (fun s x => Field.setBang s x y (l.current.next x y)) s)
    l.next

/-- `Life::step` as a fallible function: the write pass (whose `unwrap`s
propagate as errors) followed by `mem::swap(&mut self.current, &mut self.next)`. -/
def Life.stepE (l : Life) : Except String Life := do
  let scr ← l.writePass
  Except.ok { current := scr, next := l.current, width := l.width, height := l.height }

/-- `Life::step`; the error branch is unreachable for well-formed states
(claim C9). -/
def Life.step (l : Life) : Life :=
  match l.stepE with
  | Except.ok l' => l'
  | Except.error _ => l

/-- One row of `Display::fmt` output: `width` cell characters then `'\n'`. -/
def Life.renderRow (l : Life) (y : Nat) : List Char :=
  ((List.range l.width).map fun (x : Nat) =>
    if l.current.is_alive (x : Int) (y : Int) then '*' else ' ') ++ ['\n']

/-- `impl fmt::Display for Life`: the full character sequence written by
`fmt`, top row first. -/
def Life.render (l : Life) : List Char :=
  ((List.range l.height).map l.renderRow).flatten

/-- Dimension coherence of a simulation state: both grids are structurally
well-formed and share the `Life`'s dimensions. -/
def Life.wf (l : Life) : Prop :=
  l.current.wf ∧ l.next.wf ∧
  l.current.width = l.width ∧ l.current.height = l.height ∧
  l.next.width = l.width ∧ l.next.height = l.height

/-! ### Basic list lemmas -/

theorem getD_replicate {α : Type} {i n : Nat} (h : i < n) (a d : α) :
    (List.replicate n a).getD i d = a := by
  induction n generalizing i with
  | zero => omega
  | succ n ih =>
    cases i with
    | zero => simp [List.replicate]
    | succ i => simpa [List.replicate] using ih (by omega)

theorem getD_set_self {α : Type} {i : Nat} {l : List α} (h : i < l.length) (a d : α) :
    (l.set i a).getD i d = a := by
  induction l generalizing i with
  | nil => simp at h
  | cons b t ih =>
    cases i with
    | zero => simp
    | succ i => simpa using ih (by simpa using h)

theorem getD_set_ne {α : Type} {i j : Nat} (hij : i ≠ j) (l : List α) (a d : α) :
    (l.set i a).getD j d = l.getD j d := by
  induction l generalizing i j with
  | nil => simp
  | cons b t ih =>
    cases i with
    | zero =>
      cases j with
      | zero => omega
      | succ j => simp
    | succ i =>
      cases j with
      | zero => simp
      | succ j => simpa using ih (by omega)

/-! ### Claim C3: toroidal read normalization -/

/-- C3: for positive dimensions and arbitrary integers `x, y`,
`is_alive (x, y) = is_alive (x mod width, y mod height)` with Euclidean
modulo; `is_alive` is total (never errors), as its Lean type shows. -/
theorem is_alive_emod (f : Field) (hw : 0 < f.width) (hh : 0 < f.height) (x y : Int) :
    f.is_alive x y = f.is_alive (x % (f.width : Int)) (y % (f.height : Int)) := by
  simp only [Field.is_alive, Int.emod_emod_of_dvd _ dvd_rfl]

/-- Witness for C3 on a concrete grid: width 5, x = -1 behaves like x = 4. -/
theorem is_alive_emod_witness :
    (Field.new 5 3).is_alive (-1) 0 =
      (Field.new 5 3).is_alive ((-1 : Int) % 5) ((0 : Int) % 3) :=
  is_alive_emod (Field.new 5 3) (by decide) (by decide) (-1) 0

/-! ### Claim C7: a fresh grid is all dead -/

/-- C7: for positive dimensions, every in-range cell of `Field::new`'s
result reads dead. -/
theorem new_is_alive_false (w h x y : Nat) (hw : 0 < w) (hh : 0 < h)
    (hx : x < w) (hy : y < h) :
    (Field.new w h).is_alive (x : Int) (y : Int) = false := by
  have hx' : ((x : Int) % (w : Int)) = (x : Int) :=
    Int.emod_eq_of_lt (by omega) (by exact_mod_cast hx)
  have hy' : ((y : Int) % (h : Int)) = (y : Int) :=
    Int.emod_eq_of_lt (by omega) (by exact_mod_cast hy)
  simp only [Field.is_alive, Field.new, hx', hy', Int.toNat_natCast]
  rw [getD_replicate hy, getD_replicate hx]

/-- Witness for C7 at a concrete grid and cell. -/
theorem new_is_alive_false_witness :
    (Field.new 4 7).is_alive (2 : Nat) (5 : Nat) = false :=
  new_is_alive_false 4 7 2 5 (by decide) (by decide) (by decide) (by decide)

theorem getD_mem {α : Type} {i : Nat} {l : List α} (h : i < l.length) (d : α) :
    l.getD i d ∈ l := by
  induction l generalizing i with
  | nil => simp at h
  | cons a t ih =>
    cases i with
    | zero => simp
    | succ i => exact List.mem_cons_of_mem _ (ih (by simpa using h))

/-! ### Structural facts about `Field.set` -/

theorem wf_row_length {f : Field} (hf : f.wf) {y : Nat} (hy : y < f.height) :
    (f.cells.getD y []).length = f.width := by
  obtain ⟨hlen, hrows⟩ := hf
  exact hrows _ (getD_mem (by omega) [])

/-- Cell reads after a successful in-range `set`: the written cell holds the
new value, every other index is unchanged. -/
theorem cellAt_set (f : Field) (x y : Nat) (v : Bool) (hf : f.wf)
    (hx : x < f.width) (hy : y < f.height) (x' y' : Nat) :
    (f.set x y v).1.cellAt x' y' =
      if x' = x ∧ y' = y then v else f.cellAt x' y' := by
  have hylen : y < f.cells.length := by
    have := hf.1
    omega
  have hxlen : x < (f.cells.getD y []).length := by rw [wf_row_length hf hy]; omega
  have hstate : (f.set x y v).1 =
      { f with cells := f.cells.set y ((f.cells.getD y []).set x v) } := by
    unfold Field.set
    rw [if_neg (by omega : ¬(x ≥ f.width ∨ y ≥ f.height))]
  have hread : Field.cellAt { f with cells := f.cells.set y ((f.cells.getD y []).set x v) } x' y'
      = ((f.cells.set y ((f.cells.getD y []).set x v)).getD y' []).getD x' false := rfl
  have hold : f.cellAt x' y' = (f.cells.getD y' []).getD x' false := rfl
  rw [hstate, hread, hold]
  by_cases hyy : y' = y
  · subst hyy
    rw [getD_set_self hylen]
    by_cases hxx : x' = x
    · subst hxx
      rw [getD_set_self hxlen, if_pos ⟨rfl, rfl⟩]
    · rw [getD_set_ne (fun hc => hxx hc.symm), if_neg (by tauto)]
  · rw [getD_set_ne (fun hc => hyy hc.symm), if_neg (by tauto)]

theorem set_dims (f : Field) (x y : Nat) (v : Bool) :
    (f.set x y v).1.width = f.width ∧ (f.set x y v).1.height = f.height := by
  unfold Field.set
  by_cases h : x ≥ f.width ∨ y ≥ f.height <;> simp [h]

theorem set_wf (f : Field) (x y : Nat) (v : Bool) (hf : f.wf) :
    (f.set x y v).1.wf := by
  unfold Field.set
  by_cases h : x ≥ f.width ∨ y ≥ f.height
  · simpa [h] using hf
  · simp only [if_neg h]
    refine ⟨by simpa using hf.1, ?_⟩
    intro r hr
    rcases List.mem_or_eq_of_mem_set hr with hr | hr
    · exact hf.2 _ hr
    · subst hr
      simp only [List.length_set]
      exact wf_row_length hf (by omega)

theorem new_wf (w h : Nat) : (Field.new w h).wf := by
  constructor
  · simp [Field.new]
  · intro r hr
    simp only [Field.new] at hr
    have := List.eq_of_mem_replicate hr
    simp [this, Field.new]

/-! ### Claim C4: bounds-checked write -/

/-- C4: an out-of-range `set` fails with the out-of-bounds error and leaves
the grid untouched; an in-range `set` succeeds and writes the cell. -/
theorem set_bounds_spec (f : Field) (x y : Nat) (v : Bool) (hf : f.wf) :
    ((x ≥ f.width ∨ y ≥ f.height) →
      f.set x y v = (f, Except.error "coordinates are out of bounds"))
    ∧ (x < f.width → y < f.height →
      (f.set x y v).2 = Except.ok () ∧ (f.set x y v).1.cellAt x y = v) := by
  constructor
  · intro h
    simp [Field.set, h]
  · intro hx hy
    refine ⟨by simp [Field.set, if_neg (by omega : ¬(x ≥ f.width ∨ y ≥ f.height))], ?_⟩
    simpa using cellAt_set f x y v hf hx hy x y

/-- Witness for C4: both branches exercised on a concrete 3×2 grid. -/
theorem set_bounds_spec_witness :
    ((Field.new 3 2).set 5 0 true =
      (Field.new 3 2, Except.error "coordinates are out of bounds"))
    ∧ ((Field.new 3 2).set 1 1 true).2 = Except.ok ()
    ∧ (((Field.new 3 2).set 1 1 true).1.cellAt 1 1 = true) := by
  refine ⟨(set_bounds_spec (Field.new 3 2) 5 0 true (new_wf 3 2)).1 (by left; decide), ?_, ?_⟩
  · exact ((set_bounds_spec (Field.new 3 2) 1 1 true (new_wf 3 2)).2
      (by decide) (by decide)).1
  · exact ((set_bounds_spec (Field.new 3 2) 1 1 true (new_wf 3 2)).2
      (by decide) (by decide)).2

/-! ### Claim C10: frame property of `set` -/

/-- C10: a successful in-range `set` keeps the dimensions and every cell other
than `(x, y)`. -/
theorem set_frame (f : Field) (x y : Nat) (v : Bool) (hf : f.wf)
    (hx : x < f.width) (hy : y < f.height) :
    (f.set x y v).1.width = f.width ∧ (f.set x y v).1.height = f.height ∧
    ∀ x' y', x' ≠ x ∨ y' ≠ y →
      (f.set x y v).1.cellAt x' y' = f.cellAt x' y' := by
  refine ⟨(set_dims f x y v).1, (set_dims f x y v).2, ?_⟩
  intro x' y' hne
  rw [cellAt_set f x y v hf hx hy, if_neg (by tauto)]

/-- Witness for C10 on a concrete grid: a write at (1,1) leaves (2,0) alone. -/
theorem set_frame_witness :
    ((Field.new 3 2).set 1 1 true).1.width = 3 ∧
    ((Field.new 3 2).set 1 1 true).1.cellAt 2 0 = (Field.new 3 2).cellAt 2 0 := by
  have h := set_frame (Field.new 3 2) 1 1 true (new_wf 3 2) (by decide) (by decide)
  exact ⟨h.1, h.2.2 2 0 (by left; decide)⟩

/-! ### Claim C1: the B3/S23 rule of `Field::next` -/

/-- The neighbor count exactly as the spec words it: the alive cells among the
8 Moore offsets relative to `(x, y)`, each read through the wrapping
`is_alive`.  Spec-side description, compared against the source's
`Field.next` below. -/
def specNeighborCount (f : Field) (x y : Int) : Nat :=
  (if f.is_alive (x - 1) (y - 1) = true then 1 else 0) +
  (if f.is_alive x (y - 1) = true then 1 else 0) +
  (if f.is_alive (x + 1) (y - 1) = true then 1 else 0) +
  (if f.is_alive (x - 1) y = true then 1 else 0) +
  (if f.is_alive (x + 1) y = true then 1 else 0) +
  (if f.is_alive (x - 1) (y + 1) = true then 1 else 0) +
  (if f.is_alive x (y + 1) = true then 1 else 0) +
  (if f.is_alive (x + 1) (y + 1) = true then 1 else 0)

theorem count_eq (f : Field) (x y : Int) :
    (NEIGHBORS.filter (fun p => f.is_alive (x + p.1) (y + p.2))).length
      = specNeighborCount f x y := by
  rw [← List.countP_eq_length_filter]
  simp only [NEIGHBORS, List.countP_cons, List.countP_nil]
  have e1 : x + (-1 : Int) = x - 1 := by ring
  have e2 : y + (-1 : Int) = y - 1 := by ring
  have e3 : x + (0 : Int) = x := by ring
  have e4 : y + (0 : Int) = y := by ring
  rw [e1, e2, e3, e4]
  unfold specNeighborCount
  ring

/-- C1: for an in-range cell, `Field::next` returns true iff the Moore
neighbor count is 3, or is 2 with the cell itself alive; consequences:
count 3 forces alive, count 2 preserves the state, any other count kills. -/
theorem next_state_rule (f : Field) (x y : Int)
    (hx0 : 0 ≤ x) (hxw : x < (f.width : Int))
    (hy0 : 0 ≤ y) (hyh : y < (f.height : Int)) :
    (f.next x y = true ↔
      specNeighborCount f x y = 3 ∨
        (specNeighborCount f x y = 2 ∧ f.is_alive x y = true))
    ∧ (specNeighborCount f x y = 3 → f.next x y = true)
    ∧ (specNeighborCount f x y = 2 → f.next x y = f.is_alive x y)
    ∧ (specNeighborCount f x y ≠ 2 ∧ specNeighborCount f x y ≠ 3 →
        f.next x y = false) := by
  have hc := count_eq f x y
  unfold Field.next
  rw [hc]
  cases hb : f.is_alive x y <;>
    simp [hb, Bool.or_eq_true, beq_iff_eq, Bool.and_eq_true] <;>
    omega

/-- Witness for C1: a cell of a concrete 3×3 grid with 3 alive neighbors is
born. -/
theorem next_state_rule_witness :
    (Field.mk [[false, true, false], [true, true, false], [false, false, false]]
      3 3).next 0 0 = true :=
  (next_state_rule _ 0 0 (by decide) (by decide) (by decide) (by decide)).1.mpr
    (by decide)

/-! ### Claim C5: shape and content of the rendered text -/

theorem getD_append_left {α : Type} {l l' : List α} {i : Nat} (h : i < l.length) (d : α) :
    (l ++ l').getD i d = l.getD i d := by
  induction l generalizing i with
  | nil => simp at h
  | cons a t ih =>
    cases i with
    | zero => simp
    | succ i => simpa using ih (by simpa using h)

theorem getD_append_right {α : Type} (l l' : List α) (i : Nat) (d : α) :
    (l ++ l').getD (l.length + i) d = l'.getD i d := by
  induction l with
  | nil => simp
  | cons a t ih => simpa [Nat.succ_add] using ih

theorem flatten_getD {α : Type} {rows : List (List α)} {L : Nat}
    (hL : ∀ r ∈ rows, r.length = L) {y x : Nat}
    (hy : y < rows.length) (hx : x < L) (d : α) :
    rows.flatten.getD (y * L + x) d = (rows.getD y []).getD x d := by
  induction rows generalizing y with
  | nil => simp at hy
  | cons r t ih =>
    cases y with
    | zero =>
      have hr : r.length = L := hL r (by simp)
      simpa using @getD_append_left _ r t.flatten x (by omega) d
    | succ y =>
      have hr : r.length = L := hL r (by simp)
      have harith : (y + 1) * L + x = r.length + (y * L + x) := by
        rw [hr]; ring
      rw [List.flatten_cons, harith,
        getD_append_right r t.flatten (y * L + x) d]
      simpa using ih (fun r hr => hL r (by simp [hr])) (by simpa using hy)

theorem renderRow_length (l : Life) (y : Nat) :
    (l.renderRow y).length = l.width + 1 := by
  simp [Life.renderRow]

theorem renderRow_getD_cell (l : Life) (y x : Nat) (hx : x < l.width) :
    (l.renderRow y).getD x ' ' =
      if l.current.is_alive (x : Int) (y : Int) then '*' else ' ' := by
  unfold Life.renderRow
  rw [getD_append_left (by simpa using hx) ' ']
  rw [List.getD_eq_getElem?_getD, List.getElem?_map, List.getElem?_range hx]
  rfl

theorem renderRow_getD_last (l : Life) (y : Nat) :
    (l.renderRow y).getD l.width ' ' = '\n' := by
  unfold Life.renderRow
  have h0 := getD_append_right
    ((List.range l.width).map fun (x : Nat) =>
      if l.current.is_alive (x : Int) (y : Int) then '*' else ' ') ['\n'] 0 ' '
  simpa using h0

theorem render_chars (l : Life) :
    l.render.length = l.height * (l.width + 1)
    ∧ (∀ y, y < l.height → ∀ x, x < l.width →
        l.render.getD (y * (l.width + 1) + x) ' ' =
          if l.current.is_alive (x : Int) (y : Int) then '*' else ' ')
    ∧ (∀ y, y < l.height →
        l.render.getD (y * (l.width + 1) + l.width) ' ' = '\n')
    ∧ (∀ c ∈ l.render, c = '*' ∨ c = ' ' ∨ c = '\n') := by
  have hrowlen : ∀ r ∈ (List.range l.height).map l.renderRow, r.length = l.width + 1 := by
    intro r hr
    rcases List.mem_map.1 hr with ⟨y, _, rfl⟩
    exact renderRow_length l y
  have hrows : ((List.range l.height).map l.renderRow).length = l.height := by simp
  have hrow : ∀ y, y < l.height →
      ((List.range l.height).map l.renderRow).getD y [] = l.renderRow y := by
    intro y hy
    rw [List.getD_eq_getElem?_getD, List.getElem?_map, List.getElem?_range hy]
    rfl
  refine ⟨?_, ?_, ?_, ?_⟩
  · unfold Life.render
    rw [List.length_flatten, List.map_map]
    have hconst : (List.length ∘ l.renderRow) = fun (_ : Nat) => l.width + 1 :=
      funext fun y => renderRow_length l y
    rw [hconst]
    simp [Nat.mul_comm]
  · intro y hy x hx
    unfold Life.render
    rw [flatten_getD hrowlen (by omega) (by omega) ' ', hrow y hy]
    exact renderRow_getD_cell l y x hx
  · intro y hy
    unfold Life.render
    rw [flatten_getD hrowlen (by omega) (by omega) ' ', hrow y hy]
    exact renderRow_getD_last l y
  · intro c hc
    unfold Life.render at hc
    rcases List.mem_flatten.1 hc with ⟨r, hr, hcr⟩
    rcases List.mem_map.1 hr with ⟨y, _, rfl⟩
    unfold Life.renderRow at hcr
    rcases List.mem_append.1 hcr with h | h
    · rcases List.mem_map.1 h with ⟨x, _, rfl⟩
      by_cases hb : l.current.is_alive (x : Int) (y : Int) = true <;> simp [hb]
    · simp at h
      simp [h]

/-- C5: the rendered character sequence consists of exactly `height` lines in
row-major order (top row first), each being `width` cell characters (`'*'`
alive, `' '` dead, read from the current grid) followed by `'\n'`, and no
other character occurs.  (It is a pure function of the state: re-rendering
without an intervening `step` trivially yields the same list.) -/
theorem render_spec (l : Life) :
    l.render.length = l.height * (l.width + 1)
    ∧ (∀ y, y < l.height → ∀ x, x < l.width →
        l.render.getD (y * (l.width + 1) + x) ' ' =
          if l.current.is_alive (x : Int) (y : Int) then '*' else ' ')
    ∧ (∀ y, y < l.height →
        l.render.getD (y * (l.width + 1) + l.width) ' ' = '\n')
    ∧ (∀ c ∈ l.render, c = '*' ∨ c = ' ' ∨ c = '\n') :=
  render_chars l

/-- Witness for C5 on a concrete 2×1 simulation: total length, the two cell
characters and the line terminator. -/
theorem render_spec_witness :
    (Life.mk (Field.mk [[true, false]] 2 1) (Field.new 2 1) 2 1).render.length = 1 * (2 + 1)
    ∧ (Life.mk (Field.mk [[true, false]] 2 1) (Field.new 2 1) 2 1).render.getD 0 ' ' = '*'
    ∧ (Life.mk (Field.mk [[true, false]] 2 1) (Field.new 2 1) 2 1).render.getD 2 ' ' = '\n' := by
  have h := render_spec (Life.mk (Field.mk [[true, false]] 2 1) (Field.new 2 1) 2 1)
  refine ⟨h.1, ?_, ?_⟩
  · have := h.2.1 0 (by decide) 0 (by decide)
    simpa using this.trans (by decide)
  · simpa using h.2.2.1 0 (by decide)

/-! ### The write pass of `Life::step` -/

theorem is_alive_eq_cellAt (f : Field) (x y : Nat) (hx : x < f.width) (hy : y < f.height) :
    f.is_alive (x : Int) (y : Int) = f.cellAt x y := by
  have hx' : ((x : Int) % (f.width : Int)) = (x : Int) :=
    Int.emod_eq_of_lt (by omega) (by exact_mod_cast hx)
  have hy' : ((y : Int) % (f.height : Int)) = (y : Int) :=
    Int.emod_eq_of_lt (by omega) (by exact_mod_cast hy)
  simp only [Field.is_alive, Field.cellAt, hx', hy', Int.toNat_natCast]

theorem setBang_ok (f : Field) (x y : Nat) (v : Bool)
    (hx : x < f.width) (hy : y < f.height) :
    f.setBang x y v = Except.ok (f.set x y v).1 := by
  have h2 : (f.set x y v).2 = Except.ok () := by
    unfold Field.set
    rw [if_neg (by omega : ¬(x ≥ f.width ∨ y ≥ f.height))]
  unfold Field.setBang
  rw [show f.set x y v = ((f.set x y v).1, (f.set x y v).2) from rfl, h2]

theorem foldRow_ok (g : Nat → Nat → Bool) (y : Nat) (n : Nat) :
    ∀ (s : Field), s.wf → n ≤ s.width → y < s.height →
    ∃ s', (List.range n).foldlM (fun t x => Field.setBang t x y (g x y)) s
        = Except.ok s'
      ∧ s'.width = s.width ∧ s'.height = s.height ∧ s'.wf
      ∧ (∀ x' y', s'.cellAt x' y' =
          if y' = y ∧ x' < n then g x' y' else s.cellAt x' y') := by
  induction n with
  | zero =>
    intro s hwf _ _
    exact ⟨s, rfl, rfl, rfl, hwf, fun x' y' => by simp⟩
  | succ n ih =>
    intro s hwf hn hy
    obtain ⟨s', hfold, hw, hh, hwf', hcell⟩ := ih s hwf (by omega) hy
    have hx' : n < s'.width := by omega
    have hy' : y < s'.height := by omega
    refine ⟨(s'.set n y (g n y)).1, ?_, ?_, ?_, set_wf s' n y (g n y) hwf', ?_⟩
    · rw [List.range_succ, List.foldlM_append, hfold]
      show (s'.setBang n y (g n y)) >>= (fun b => pure b)
        = Except.ok (s'.set n y (g n y)).1
      rw [setBang_ok s' n y (g n y) hx' hy']
      rfl
    · rw [(set_dims s' n y (g n y)).1, hw]
    · rw [(set_dims s' n y (g n y)).2, hh]
    · intro x' y'
      rw [cellAt_set s' n y (g n y) hwf' hx' hy', hcell]
      by_cases h1 : x' = n ∧ y' = y
      · rw [if_pos h1, if_pos (by omega), h1.1, h1.2]
      · rw [if_neg h1]
        by_cases h2 : y' = y ∧ x' < n
        · rw [if_pos h2, if_pos (by omega)]
        · rw [if_neg h2, if_neg (by omega)]

theorem foldGrid_ok (g : Nat → Nat → Bool) (w : Nat) (m : Nat) :
    ∀ (s : Field), s.wf → w = s.width → m ≤ s.height →
    ∃ s', (List.range m).foldlM
        (fun t y => (List.range w).foldlM
          (fun t x => Field.setBang t x y (g x y)) t) s
        = Except.ok s'
      ∧ s'.width = s.width ∧ s'.height = s.height ∧ s'.wf
      ∧ (∀ x' y', s'.cellAt x' y' =
          if y' < m ∧ x' < w then g x' y' else s.cellAt x' y') := by
  induction m with
  | zero =>
    intro s hwf _ _
    exact ⟨s, rfl, rfl, rfl, hwf, fun x' y' => by simp⟩
  | succ m ih =>
    intro s hwf hw hm
    obtain ⟨s', hfold, hw', hh', hwf', hcell⟩ := ih s hwf hw (by omega)
    obtain ⟨s'', hrow, hw'', hh'', hwf'', hcell'⟩ :=
      foldRow_ok g m w s' hwf' (by omega) (by omega)
    refine ⟨s'', ?_, by omega, by omega, hwf'', ?_⟩
    · rw [List.range_succ, List.foldlM_append, hfold]
      show ((List.range w).foldlM (fun t x => Field.setBang t x m (g x m)) s')
          >>= (fun b => pure b) = Except.ok s''
      rw [hrow]
      rfl
    · intro x' y'
      rw [hcell' x' y', hcell x' y']
      by_cases h1 : y' = m ∧ x' < w
      · rw [if_pos h1, if_pos (by omega)]
      · rw [if_neg h1]
        by_cases h2 : y' < m ∧ x' < w
        · rw [if_pos h2, if_pos (by omega)]
        · rw [if_neg h2, if_neg (by omega)]

/-- Full characterization of a successful `Life::step`: the scratch grid is
completely rewritten with the next generation and the buffers swap. -/
theorem stepE_spec (l : Life) (hl : l.wf) :
    ∃ s', l.stepE = Except.ok (Life.mk s' l.current l.width l.height)
      ∧ s'.width = l.width ∧ s'.height = l.height ∧ s'.wf
      ∧ ∀ x y, x < l.width → y < l.height →
          s'.cellAt x y = l.current.next (x : Int) (y : Int) := by
  obtain ⟨hwfc, hwfn, hcw, hch, hnw, hnh⟩ := hl
  obtain ⟨s', hfold, hw', hh', hwf', hcell⟩ :=
    foldGrid_ok (fun x y => l.current.next (x : Int) (y : Int)) l.width l.height
      l.next hwfn (by omega) (by omega)
  refine ⟨s', ?_, by omega, by omega, hwf', ?_⟩
  · unfold Life.stepE Life.writePass
    rw [hfold]
    rfl
  · intro x y hx hy
    rw [hcell x y, if_pos ⟨hy, hx⟩]

theorem step_state (l : Life) (hl : l.wf) :
    (l.step).next = l.current ∧ (l.step).width = l.width ∧
    (l.step).height = l.height ∧ (l.step).wf ∧
    ∀ x y, x < l.width → y < l.height →
      (l.step).current.cellAt x y = l.current.next (x : Int) (y : Int) := by
  obtain ⟨s', hstep, hw', hh', hwf', hcell⟩ := stepE_spec l hl
  have hs : l.step = Life.mk s' l.current l.width l.height := by
    unfold Life.step
    rw [hstep]
  obtain ⟨hwfc, hwfn, hcw, hch, hnw, hnh⟩ := hl
  rw [hs]
  exact ⟨rfl, rfl, rfl, ⟨hwf', hwfc, hw', hh', hcw, hch⟩, hcell⟩

/-! ### Claim C9: the writes inside `step` never go out of bounds -/

/-- C9: on a dimension-coherent state every `set` performed by `step` is
in-bounds, hence the whole write pass succeeds and the `unwrap` can never
fire: `stepE` returns `ok`. -/
theorem step_no_panic (l : Life) (hl : l.wf) :
    ∃ l', l.stepE = Except.ok l' := by
  obtain ⟨s', hstep, _⟩ := stepE_spec l hl
  exact ⟨_, hstep⟩

/-- Witness for C9 on a concrete 2×2 simulation. -/
theorem step_no_panic_witness :
    ∃ l', (Life.mk (Field.new 2 2) (Field.new 2 2) 2 2).stepE = Except.ok l' :=
  step_no_panic (Life.mk (Field.new 2 2) (Field.new 2 2) 2 2)
    ⟨⟨by decide, by decide⟩, ⟨by decide, by decide⟩, rfl, rfl, rfl, rfl⟩

/-! ### Claim C2: `step` writes the next generation and swaps buffers -/

/-- C2: after `step()` every in-range cell of the new current grid holds
`next_state` of the pre-step current grid, the old current grid becomes the
scratch buffer verbatim, and the next `render()` shows the new generation. -/
theorem step_spec (l : Life) (hl : l.wf) :
    (∀ x y, x < l.width → y < l.height →
      (l.step).current.cellAt x y = l.current.next (x : Int) (y : Int))
    ∧ (l.step).next = l.current
    ∧ (∀ x y, x < l.width → y < l.height →
        (l.step).render.getD (y * (l.width + 1) + x) ' ' =
          if l.current.next (x : Int) (y : Int) then '*' else ' ') := by
  obtain ⟨hnext, hw, hh, hwf, hcell⟩ := step_state l hl
  refine ⟨hcell, hnext, ?_⟩
  intro x y hx hy
  have hcw : (l.step).current.width = l.width := by rw [hwf.2.2.1, hw]
  have hch : (l.step).current.height = l.height := by rw [hwf.2.2.2.1, hh]
  have hr := (render_chars (l.step)).2.1 y (by omega) x (by omega)
  rw [hw] at hr
  rw [hr, is_alive_eq_cellAt _ x y (by omega) (by omega), hcell x y hx hy]

/-- Witness for C2: one step of a 3×3 blinker-seeded simulation, checked at
the center cell. -/
theorem step_spec_witness :
    (Life.mk (Field.mk [[false, false, false], [true, true, true], [false, false, false]] 3 3)
      (Field.new 3 3) 3 3).step.current.cellAt 1 1 =
    (Field.mk [[false, false, false], [true, true, true], [false, false, false]] 3 3).next
      (1 : Int) (1 : Int) :=
  (step_spec
    (Life.mk (Field.mk [[false, false, false], [true, true, true], [false, false, false]] 3 3)
      (Field.new 3 3) 3 3)
    ⟨⟨by decide, by decide⟩, ⟨by decide, by decide⟩, rfl, rfl, rfl, rfl⟩).1
    1 1 (by decide) (by decide)

/-! ### Claim C6: random seeding of `Life::new` -/

theorem count_set_le (l : List Bool) (i : Nat) :
    (l.set i true).count true ≤ l.count true + 1 := by
  induction l generalizing i with
  | nil => simp
  | cons a t ih =>
    cases i with
    | zero => simp [List.count_cons]
    | succ i =>
      simp only [List.set, List.count_cons]
      have := ih i
      omega

theorem aliveCount_set_le (f : Field) (x y : Nat) :
    (f.set x y true).1.aliveCount ≤ f.aliveCount + 1 := by
  unfold Field.set
  by_cases hb : x ≥ f.width ∨ y ≥ f.height
  · simp [hb]
  · rw [if_neg hb]
    show ((f.cells.set y ((f.cells.getD y []).set x true)).map
      (fun r => r.count true)).sum ≤ f.aliveCount + 1
    unfold Field.aliveCount
    generalize f.cells = cells
    induction cells generalizing y with
    | nil => simp
    | cons c t ih =>
      cases y with
      | zero =>
        simp only [List.set, List.map_cons, List.sum_cons, List.getD_cons_zero]
        have := count_set_le c x
        omega
      | succ y =>
        simp only [List.set, List.map_cons, List.sum_cons, List.getD_cons_succ]
        have := ih y
        omega

theorem aliveCount_new (w h : Nat) : (Field.new w h).aliveCount = 0 := by
  unfold Field.new Field.aliveCount
  simp [List.map_replicate, List.sum_replicate, List.count_replicate]

theorem seedFold_ok (w h : Nat) (rng : Nat → Nat × Nat)
    (hrng : ∀ n, (rng n).1 < w ∧ (rng n).2 < h) (k : Nat) :
    ∀ s : Field, s.wf → s.width = w → s.height = h →
    ∃ s', (List.range k).foldlM
        (fun t n => Field.setBang t (rng n).1 (rng n).2 true) s = Except.ok s'
      ∧ s'.width = w ∧ s'.height = h ∧ s'.wf
      ∧ s'.aliveCount ≤ s.aliveCount + k
      ∧ (∀ x y, s'.cellAt x y = true →
          s.cellAt x y = true ∨ ∃ n, n < k ∧ rng n = (x, y)) := by
  induction k with
  | zero =>
    intro s hwf hsw hsh
    exact ⟨s, rfl, hsw, hsh, hwf, by omega, fun x y hx => Or.inl hx⟩
  | succ k ih =>
    intro s hwf hsw hsh
    obtain ⟨s', hfold, hw', hh', hwf', hcnt, hcell⟩ := ih s hwf hsw hsh
    have hx' : (rng k).1 < s'.width := by rw [hw']; exact (hrng k).1
    have hy' : (rng k).2 < s'.height := by rw [hh']; exact (hrng k).2
    refine ⟨(s'.set (rng k).1 (rng k).2 true).1, ?_, ?_, ?_,
      set_wf s' _ _ true hwf', ?_, ?_⟩
    · rw [List.range_succ, List.foldlM_append, hfold]
      show (s'.setBang (rng k).1 (rng k).2 true) >>= (fun b => pure b)
        = Except.ok (s'.set (rng k).1 (rng k).2 true).1
      rw [setBang_ok s' _ _ true hx' hy']
      rfl
    · rw [(set_dims s' _ _ true).1, hw']
    · rw [(set_dims s' _ _ true).2, hh']
    · have := aliveCount_set_le s' (rng k).1 (rng k).2
      omega
    · intro x y hx
      rw [cellAt_set s' _ _ true hwf' hx' hy'] at hx
      by_cases hp : x = (rng k).1 ∧ y = (rng k).2
      · exact Or.inr ⟨k, by omega, by rw [hp.1, hp.2]⟩
      · rw [if_neg hp] at hx
        rcases hcell x y hx with hold | ⟨n, hn, hrn⟩
        · exact Or.inl hold
        · exact Or.inr ⟨n, by omega, hrn⟩

/-- C6 (amended): `Life::new` performs `width * height / 4` picks where the
product is `u16` arithmetic, i.e. `width * height mod 2^16`; construction
succeeds whenever the generator respects `gen_range`'s contract, the alive
population is at most that pick count — hence also at most
`width * height / 4` computed exactly — and every alive cell is one of the
picked coordinates (all other cells stay dead). -/
theorem new_seed_spec (w h : Nat) (hw : 0 < w) (hh : 0 < h)
    (rng : Nat → Nat × Nat) (hrng : ∀ n, (rng n).1 < w ∧ (rng n).2 < h) :
    ∃ lf, Life.new w h rng = Except.ok lf
      ∧ lf.current.aliveCount ≤ Life.seedCount w h
      ∧ Life.seedCount w h ≤ w * h / 4
      ∧ lf.current.aliveCount ≤ w * h / 4
      ∧ (∀ x y, lf.current.cellAt x y = true →
          ∃ n, n < Life.seedCount w h ∧ rng n = (x, y)) := by
  obtain ⟨s', hfold, hw', hh', hwf', hcnt, hcell⟩ :=
    seedFold_ok w h rng hrng (Life.seedCount w h) (Field.new w h)
      (new_wf w h) rfl rfl
  have hbound : Life.seedCount w h ≤ w * h / 4 :=
    Nat.div_le_div_right (Nat.mod_le _ _)
  have hcnt' : s'.aliveCount ≤ Life.seedCount w h := by
    have := aliveCount_new w h
    omega
  refine ⟨Life.mk s' (Field.new w h) w h, ?_, hcnt', hbound, ?_, ?_⟩
  · unfold Life.new
    rw [hfold]
    rfl
  · show s'.aliveCount ≤ w * h / 4
    omega
  · intro x y hx
    rcases hcell x y hx with hold | hpick
    · have hdead : (Field.new w h).cellAt x y = false := by
        unfold Field.new Field.cellAt
        by_cases hyh : y < h
        · rw [getD_replicate hyh]
          by_cases hxw : x < w
          · rw [getD_replicate hxw]
          · have hrow : (List.replicate w false).getD x false = false := by
              rw [List.getD_eq_getElem?_getD, List.getElem?_eq_none (by simp; omega)]
              rfl
            exact hrow
        · have hrow : (List.replicate h (List.replicate w false)).getD y [] = [] := by
            rw [List.getD_eq_getElem?_getD, List.getElem?_eq_none (by simp; omega)]
            rfl
          rw [hrow]
          rfl
      rw [hold] at hdead
      exact absurd hdead (by decide)
    · exact hpick

/-- Witness for C6 on a concrete 4×4 simulation with a constant generator:
4 picks, at most 4 (and at most 16/4) alive cells. -/
theorem new_seed_spec_witness :
    ∃ lf, Life.new 4 4 (fun _ => (1, 2)) = Except.ok lf
      ∧ lf.current.aliveCount ≤ Life.seedCount 4 4
      ∧ Life.seedCount 4 4 ≤ 4 * 4 / 4
      ∧ lf.current.aliveCount ≤ 4 * 4 / 4
      ∧ (∀ x y, lf.current.cellAt x y = true →
          ∃ n, n < Life.seedCount 4 4 ∧ (fun (_ : Nat) => ((1 : Nat), (2 : Nat))) n = (x, y)) :=
  new_seed_spec 4 4 (by decide) (by decide) (fun _ => (1, 2))
    (by intro n; exact ⟨(by decide : (1 : Nat) < 4), (by decide : (2 : Nat) < 4)⟩)

/-- Counterexample to C6 as stated: with `width = height = 256` the `u16`
product wraps to 0, so the code makes `0` picks, not
`width * height / 4 = 16384`. -/
theorem seedCount_overflow : Life.seedCount 256 256 ≠ 256 * 256 / 4 := by
  unfold Life.seedCount
  decide

/-! ### Claim C8: the blinker has period 2 -/

/-- A grid whose cell `(x, y)` is computed by `p` — used to build the claim's
input patterns. -/
def mkGrid (w h : Nat) (p : Nat → Nat → Bool) : Field :=
  ⟨(List.range h).map (fun y => (List.range w).map (fun x => p x y)), w, h⟩

/-- Horizontal blinker: alive exactly on `{x0-1, x0, x0+1} × {y0}`. -/
def horizontalBar (w h x0 y0 : Nat) : Field :=
  mkGrid w h (fun x y => decide (y = y0 ∧ (x + 1 = x0 ∨ x = x0 ∨ x = x0 + 1)))

/-- Vertical blinker: alive exactly on `{x0} × {y0-1, y0, y0+1}`. -/
def verticalBar (w h x0 y0 : Nat) : Field :=
  mkGrid w h (fun x y => decide (x = x0 ∧ (y + 1 = y0 ∨ y = y0 ∨ y = y0 + 1)))

theorem getD_map_range {α : Type} (n : Nat) (f : Nat → α) {i : Nat} (hi : i < n) (d : α) :
    ((List.range n).map f).getD i d = f i := by
  rw [List.getD_eq_getElem?_getD, List.getElem?_map, List.getElem?_range hi]
  rfl

theorem mkGrid_wf (w h : Nat) (p : Nat → Nat → Bool) : (mkGrid w h p).wf := by
  constructor
  · simp [mkGrid]
  · intro r hr
    simp only [mkGrid] at hr
    rcases List.mem_map.1 hr with ⟨y, _, rfl⟩
    simp [mkGrid]

theorem mkGrid_cellAt (w h : Nat) (p : Nat → Nat → Bool) {x y : Nat}
    (hx : x < w) (hy : y < h) : (mkGrid w h p).cellAt x y = p x y := by
  show (((List.range h).map
    (fun y => (List.range w).map (fun x => p x y))).getD y []).getD x false = p x y
  rw [getD_map_range h _ hy, getD_map_range w _ hx]

theorem is_alive_wrap (f : Field) (x y : Int) :
    f.is_alive x y =
      f.cellAt (x % (f.width : Int)).toNat (y % (f.height : Int)).toNat := rfl

theorem mkGrid_is_alive (w h : Nat) (p : Nat → Nat → Bool)
    (hw : 0 < w) (hh : 0 < h) (x y : Int) :
    (mkGrid w h p).is_alive x y
      = p (x % (w : Int)).toNat (y % (h : Int)).toNat := by
  rw [is_alive_wrap]
  have hxr : (x % ((w : Nat) : Int)).toNat < w := by
    have h1 : 0 ≤ x % ((w : Nat) : Int) := Int.emod_nonneg x (by omega)
    have h2 : x % ((w : Nat) : Int) < w := Int.emod_lt_of_pos x (by omega)
    omega
  have hyr : (y % ((h : Nat) : Int)).toNat < h := by
    have h1 : 0 ≤ y % ((h : Nat) : Int) := Int.emod_nonneg y (by omega)
    have h2 : y % ((h : Nat) : Int) < h := Int.emod_lt_of_pos y (by omega)
    omega
  exact mkGrid_cellAt w h p hxr hyr

theorem emod_neg_one (w : Int) (hw : 0 < w) : (-1 : Int) % w = w - 1 := by
  have h1 : (-1 : Int) = (w - 1) + w * (-1) := by ring
  rw [h1, Int.add_mul_emod_self_left]
  exact Int.emod_eq_of_lt (by omega) (by omega)

/-- Reading a single column/row index through the torus is transparent when
the index keeps a margin of one cell from both borders. -/
theorem wrap_hit1 (w k : Nat) (hk1 : 1 ≤ k) (hk2 : k + 2 ≤ w) (u : Int)
    (hu1 : -1 ≤ u) (hu2 : u ≤ (w : Int)) :
    (u % (w : Int)).toNat = k ↔ u = (k : Int) := by
  rcases (by omega : u = -1 ∨ u = (w : Int) ∨ (0 ≤ u ∧ u < (w : Int)))
    with hu | hu | ⟨h0, h1⟩
  · subst hu
    rw [emod_neg_one _ (by omega)]
    omega
  · subst hu
    rw [Int.emod_self]
    omega
  · rw [Int.emod_eq_of_lt h0 h1]
    omega

/-- Same, for membership of the three-cell bar `{k-1, k, k+1}` with a margin
of one cell around it. -/
theorem wrap_hit3 (w k : Nat) (hk1 : 2 ≤ k) (hk2 : k + 3 ≤ w) (u : Int)
    (hu1 : -1 ≤ u) (hu2 : u ≤ (w : Int)) :
    ((u % (w : Int)).toNat + 1 = k ∨ (u % (w : Int)).toNat = k ∨
      (u % (w : Int)).toNat = k + 1)
      ↔ (u + 1 = (k : Int) ∨ u = (k : Int) ∨ u = (k : Int) + 1) := by
  rcases (by omega : u = -1 ∨ u = (w : Int) ∨ (0 ≤ u ∧ u < (w : Int)))
    with hu | hu | ⟨h0, h1⟩
  · subst hu
    rw [emod_neg_one _ (by omega)]
    omega
  · subst hu
    rw [Int.emod_self]
    omega
  · rw [Int.emod_eq_of_lt h0 h1]
    omega

theorem barH_alive (w h x0 y0 : Nat) (hx1 : 2 ≤ x0) (hx2 : x0 + 3 ≤ w)
    (hy1 : 2 ≤ y0) (hy2 : y0 + 3 ≤ h) (u v : Int)
    (hu1 : -1 ≤ u) (hu2 : u ≤ (w : Int)) (hv1 : -1 ≤ v) (hv2 : v ≤ (h : Int)) :
    (horizontalBar w h x0 y0).is_alive u v
      = decide (v = (y0 : Int) ∧
          (u + 1 = (x0 : Int) ∨ u = (x0 : Int) ∨ u = (x0 : Int) + 1)) := by
  unfold horizontalBar
  rw [mkGrid_is_alive _ _ _ (by omega) (by omega), decide_eq_decide]
  exact and_congr (wrap_hit1 h y0 (by omega) (by omega) v hv1 hv2)
    (wrap_hit3 w x0 hx1 hx2 u hu1 hu2)

theorem barV_alive (w h x0 y0 : Nat) (hx1 : 2 ≤ x0) (hx2 : x0 + 3 ≤ w)
    (hy1 : 2 ≤ y0) (hy2 : y0 + 3 ≤ h) (u v : Int)
    (hu1 : -1 ≤ u) (hu2 : u ≤ (w : Int)) (hv1 : -1 ≤ v) (hv2 : v ≤ (h : Int)) :
    (verticalBar w h x0 y0).is_alive u v
      = decide (u = (x0 : Int) ∧
          (v + 1 = (y0 : Int) ∨ v = (y0 : Int) ∨ v = (y0 : Int) + 1)) := by
  unfold verticalBar
  rw [mkGrid_is_alive _ _ _ (by omega) (by omega), decide_eq_decide]
  exact and_congr (wrap_hit1 w x0 (by omega) (by omega) u hu1 hu2)
    (wrap_hit3 h y0 hy1 hy2 v hv1 hv2)

set_option maxHeartbeats 1000000

/-- One generation applied to the horizontal blinker: the vertical blinker. -/
theorem barH_next (w h x0 y0 : Nat) (hx1 : 2 ≤ x0) (hx2 : x0 + 3 ≤ w)
    (hy1 : 2 ≤ y0) (hy2 : y0 + 3 ≤ h) (x y : Nat) (hx : x < w) (hy : y < h) :
    (horizontalBar w h x0 y0).next (x : Int) (y : Int)
      = decide ((x : Int) = (x0 : Int) ∧
          ((y : Int) + 1 = (y0 : Int) ∨ (y : Int) = (y0 : Int) ∨
            (y : Int) = (y0 : Int) + 1)) := by
  have hc := count_eq (horizontalBar w h x0 y0) (x : Int) (y : Int)
  simp only [Field.next]
  rw [hc]
  unfold specNeighborCount
  rw [barH_alive w h x0 y0 hx1 hx2 hy1 hy2 ((x : Int) - 1) ((y : Int) - 1)
        (by omega) (by omega) (by omega) (by omega),
      barH_alive w h x0 y0 hx1 hx2 hy1 hy2 (x : Int) ((y : Int) - 1)
        (by omega) (by omega) (by omega) (by omega),
      barH_alive w h x0 y0 hx1 hx2 hy1 hy2 ((x : Int) + 1) ((y : Int) - 1)
        (by omega) (by omega) (by omega) (by omega),
      barH_alive w h x0 y0 hx1 hx2 hy1 hy2 ((x : Int) - 1) (y : Int)
        (by omega) (by omega) (by omega) (by omega),
      barH_alive w h x0 y0 hx1 hx2 hy1 hy2 ((x : Int) + 1) (y : Int)
        (by omega) (by omega) (by omega) (by omega),
      barH_alive w h x0 y0 hx1 hx2 hy1 hy2 ((x : Int) - 1) ((y : Int) + 1)
        (by omega) (by omega) (by omega) (by omega),
      barH_alive w h x0 y0 hx1 hx2 hy1 hy2 (x : Int) ((y : Int) + 1)
        (by omega) (by omega) (by omega) (by omega),
      barH_alive w h x0 y0 hx1 hx2 hy1 hy2 ((x : Int) + 1) ((y : Int) + 1)
        (by omega) (by omega) (by omega) (by omega),
      barH_alive w h x0 y0 hx1 hx2 hy1 hy2 (x : Int) (y : Int)
        (by omega) (by omega) (by omega) (by omega)]
  simp only [decide_eq_true_eq]
  rw [Bool.eq_iff_iff]
  simp only [Bool.or_eq_true, Bool.and_eq_true, beq_iff_eq, decide_eq_true_eq]
  split_ifs <;> omega

/-- One generation applied to the vertical blinker: the horizontal blinker. -/
theorem barV_next (w h x0 y0 : Nat) (hx1 : 2 ≤ x0) (hx2 : x0 + 3 ≤ w)
    (hy1 : 2 ≤ y0) (hy2 : y0 + 3 ≤ h) (x y : Nat) (hx : x < w) (hy : y < h) :
    (verticalBar w h x0 y0).next (x : Int) (y : Int)
      = decide ((y : Int) = (y0 : Int) ∧
          ((x : Int) + 1 = (x0 : Int) ∨ (x : Int) = (x0 : Int) ∨
            (x : Int) = (x0 : Int) + 1)) := by
  have hc := count_eq (verticalBar w h x0 y0) (x : Int) (y : Int)
  simp only [Field.next]
  rw [hc]
  unfold specNeighborCount
  rw [barV_alive w h x0 y0 hx1 hx2 hy1 hy2 ((x : Int) - 1) ((y : Int) - 1)
        (by omega) (by omega) (by omega) (by omega),
      barV_alive w h x0 y0 hx1 hx2 hy1 hy2 (x : Int) ((y : Int) - 1)
        (by omega) (by omega) (by omega) (by omega),
      barV_alive w h x0 y0 hx1 hx2 hy1 hy2 ((x : Int) + 1) ((y : Int) - 1)
        (by omega) (by omega) (by omega) (by omega),
      barV_alive w h x0 y0 hx1 hx2 hy1 hy2 ((x : Int) - 1) (y : Int)
        (by omega) (by omega) (by omega) (by omega),
      barV_alive w h x0 y0 hx1 hx2 hy1 hy2 ((x : Int) + 1) (y : Int)
        (by omega) (by omega) (by omega) (by omega),
      barV_alive w h x0 y0 hx1 hx2 hy1 hy2 ((x : Int) - 1) ((y : Int) + 1)
        (by omega) (by omega) (by omega) (by omega),
      barV_alive w h x0 y0 hx1 hx2 hy1 hy2 (x : Int) ((y : Int) + 1)
        (by omega) (by omega) (by omega) (by omega),
      barV_alive w h x0 y0 hx1 hx2 hy1 hy2 ((x : Int) + 1) ((y : Int) + 1)
        (by omega) (by omega) (by omega) (by omega),
      barV_alive w h x0 y0 hx1 hx2 hy1 hy2 (x : Int) (y : Int)
        (by omega) (by omega) (by omega) (by omega)]
  simp only [decide_eq_true_eq]
  rw [Bool.eq_iff_iff]
  simp only [Bool.or_eq_true, Bool.and_eq_true, beq_iff_eq, decide_eq_true_eq]
  split_ifs <;> omega

/-- `next` only depends on the in-range cells: two dimension-equal grids that
agree cellwise compute the same generation everywhere. -/
theorem next_congr (f g : Field) (hw : f.width = g.width) (hh : f.height = g.height)
    (hpw : 0 < g.width) (hph : 0 < g.height)
    (hcell : ∀ x y, x < g.width → y < g.height → f.cellAt x y = g.cellAt x y) :
    ∀ x y : Int, f.next x y = g.next x y := by
  have halive : ∀ x y : Int, f.is_alive x y = g.is_alive x y := by
    intro x y
    rw [is_alive_wrap f, is_alive_wrap g, hw, hh]
    have h1 : 0 ≤ x % (g.width : Int) := Int.emod_nonneg x (by omega)
    have h2 : x % (g.width : Int) < g.width := Int.emod_lt_of_pos x (by omega)
    have h3 : 0 ≤ y % (g.height : Int) := Int.emod_nonneg y (by omega)
    have h4 : y % (g.height : Int) < g.height := Int.emod_lt_of_pos y (by omega)
    exact hcell _ _ (by omega) (by omega)
  intro x y
  simp only [Field.next, halive]

/-- C8: any simulation whose current grid is exactly a horizontal blinker,
placed with a one-cell margin away from every border (so wrap-around cannot
interfere), returns to its original alive-set after two `step()`s. -/
theorem blinker_period_two (w h x0 y0 : Nat) (hx1 : 2 ≤ x0) (hx2 : x0 + 3 ≤ w)
    (hy1 : 2 ≤ y0) (hy2 : y0 + 3 ≤ h) (l : Life) (hl : l.wf)
    (hcur : l.current = horizontalBar w h x0 y0) :
    ∀ x y, x < w → y < h →
      ((l.step).step).current.cellAt x y = l.current.cellAt x y := by
  have hW : w = l.width := by
    have hcw := hl.2.2.1
    rw [hcur] at hcw
    exact hcw
  have hH : h = l.height := by
    have hch := hl.2.2.2.1
    rw [hcur] at hch
    exact hch
  obtain ⟨hnext1, hw1, hh1, hwf1, hcell1⟩ := step_state l hl
  obtain ⟨hnext2, hw2, hh2, hwf2, hcell2⟩ := step_state (l.step) hwf1
  have hmidW : (l.step).current.width = w := by
    rw [hwf1.2.2.1, hw1, ← hW]
  have hmidH : (l.step).current.height = h := by
    rw [hwf1.2.2.2.1, hh1, ← hH]
  have hmid : ∀ a b, a < w → b < h →
      (l.step).current.cellAt a b = (verticalBar w h x0 y0).cellAt a b := by
    intro a b ha hb
    rw [hcell1 a b (by omega) (by omega), hcur,
      barH_next w h x0 y0 hx1 hx2 hy1 hy2 a b ha hb,
      verticalBar, mkGrid_cellAt w h _ ha hb, decide_eq_decide]
    omega
  have hnextEq : ∀ u v : Int,
      (l.step).current.next u v = (verticalBar w h x0 y0).next u v :=
    next_congr _ _ hmidW hmidH (by show 0 < w; omega) (by show 0 < h; omega) hmid
  intro x y hx hy
  rw [hcell2 x y (by omega) (by omega), hnextEq,
    barV_next w h x0 y0 hx1 hx2 hy1 hy2 x y hx hy, hcur,
    horizontalBar, mkGrid_cellAt w h _ hx hy, decide_eq_decide]
  omega

/-- Witness for C8: a 5×5 grid with the blinker centered at (2,2), checked at
a cell of the bar. -/
theorem blinker_period_two_witness :
    ((Life.mk (horizontalBar 5 5 2 2) (Field.new 5 5) 5 5).step.step).current.cellAt 1 2
      = (Life.mk (horizontalBar 5 5 2 2) (Field.new 5 5) 5 5).current.cellAt 1 2 :=
  blinker_period_two 5 5 2 2 (by decide) (by decide) (by decide) (by decide)
    (Life.mk (horizontalBar 5 5 2 2) (Field.new 5 5) 5 5)
    ⟨⟨by decide, by decide⟩, ⟨by decide, by decide⟩, rfl, rfl, rfl, rfl⟩
    rfl 1 2 (by decide) (by decide)

end GoL
